import Mathlib

/-!
Shallow embedding of `src/ANM_Set_Layer_Pivots_At_Center_Of_Drawings.js`,
a Toon Boom Harmony shelf script that sets the layer pivot of each selected
drawing node (or its parent peg) to the center of the drawing's bounding box
at the current frame.

Modelling conventions:
* JS numbers are embedded as exact rationals (`ℚ`).  The
  `parseFloat(x.toFixed(20))` round-trip in `midPointAt` is the identity in
  this exact-arithmetic semantics (it only normalises the host's floating
  point formatting) and is therefore not reproduced.
* The host application's scene graph is an opaque environment: a `Scene`
  structure of query functions (`node.type`, `node.srcNode`,
  `Drawing.query.getBox`, ...).  `Drawing.query.getBox` returning `false` or
  a box with an `"empty"` key is modelled as `Option.none`.
* `node.getPivot(n, fr)` is read by the script only immediately after it has
  reset `pivot.x`/`pivot.y` of `n` to 0; the model's `Scene.getPivot` is the
  value the host returns in that zeroed state, so it can be a pure function.
* The script's observable actions on the host (attribute writes, message
  log lines, the modal dialog, the undo/redo bracket) are collected in order
  into a list of `Effect`s; queries are pure reads of the `Scene`.
-/

namespace ANMPivots

/-- Embedding of the host's `Point2d` 2-D point values. -/
structure Point2d where
  x : ℚ
  y : ℚ
deriving DecidableEq, Repr

/-- A non-empty result of `Drawing.query.getBox`: the two opposing corners
`(x0, y0)`–`(x1, y1)` in native box units. -/
structure Box where
  x0 : ℚ
  y0 : ℚ
  x1 : ℚ
  y1 : ℚ
deriving DecidableEq, Repr

/-- The running corner pair accumulated from the art layers' boxes
(`corners[0]` and `corners[1]` in the source), already divided by 1875. -/
structure Corners where
  c0x : ℚ
  c0y : ℚ
  c1x : ℚ
  c1y : ℚ
deriving DecidableEq, Repr

/-- A scene-graph node handle as seen by the selection: its path name, its
`node.type` tag, and (for groups) the `node.subNodes` children. -/
inductive SNode where
  | mk (name : String) (ntype : String) (children : List SNode)

def SNode.name : SNode → String
  | .mk nm _ _ => nm

def SNode.ntype : SNode → String
  | .mk _ t _ => t

def SNode.children : SNode → List SNode
  | .mk _ _ ch => ch

/-- The opaque host environment consumed by the script: selection, node
introspection, attribute reads, geometry queries and coordinate
conversions.  Nodes outside the selection tree are referred to by their
path names (`String`); the empty string is the host's "no node" sentinel. -/
structure Scene where
  selectedNodes : List SNode
  canAnimate : String → Bool
  useDrawingPivot : String → String
  srcNode : String → String
  ntype : String → String
  parentNode : String → String
  numberOfSubNodes : String → Nat
  currentFrame : Nat
  getBox : String → Nat → Nat → Option Box
  getPivot : String → Nat → ℚ × ℚ
  toOGLX : ℚ → ℚ
  toOGLY : ℚ → ℚ
  fromOGLX : ℚ → ℚ
  fromOGLY : ℚ → ℚ

/-- The script's observable actions on the host, in execution order. -/
inductive Effect where
  | dialog (msg : String)
  | beginUndo (name : String)
  | endUndo (name : String)
  | log (msg : String)
  | setTextAttr (nodeName : String) (attrName : String) (idx : Nat) (value : ℚ)
deriving DecidableEq, Repr

/-- Embedding of the helper `getDrawings` (source lines 154–170): flatten a
node list to the drawing (`"READ"`) nodes it contains, recursing into
`"GROUP"` nodes via `node.subNodes` and discarding every other type. -/
def getDrawings : List SNode → List String
  | [] => []
  | SNode.mk nm t ch :: rest =>
    (if t = "READ" then [nm]
     else if t = "GROUP" then getDrawings ch
     else []) ++ getDrawings rest

/-- The body of the `for (var nd = 0; nd < numSubNodes; nd++)` loop in
`traverseChainUpToFindPeg` (source lines 176–185), with the remaining
iteration count made explicit as fuel. -/
def traverseLoop (s : Scene) : Nat → String → String
  | 0, _ => ""
  | fuel + 1, src =>
    if src = "" then ""
    else if s.ntype src = "PEG" then src
    else traverseLoop s fuel (s.srcNode src)

/-- Embedding of the helper `traverseChainUpToFindPeg` (source lines
172–187): walk the upstream source-link chain from `lastNode` looking for a
`"PEG"` node, iterating at most `node.numberOfSubNodes(node.parentNode(lastNode))`
times, returning `""` on failure. -/
def traverseChainUpToFindPeg (s : Scene) (lastNode : String) : String :=
  traverseLoop s (s.numberOfSubNodes (s.parentNode lastNode)) (s.srcNode lastNode)

/-- Embedding of the helper `midPointAt` (source lines 189–194).  The
`parseFloat(x.toFixed(20))` normalisation is the identity in exact-rational
semantics. -/
def midPointAt (p1 p2 : Point2d) (t : ℚ) : Point2d :=
  Point2d.mk (p1.x * (1 - t) + p2.x * t) (p1.y * (1 - t) + p2.y * t)

/-- Embedding of the helper `subtractBFromA` (source lines 196–199). -/
def subtractBFromA (a b : Point2d) : Point2d :=
  Point2d.mk (a.x - b.x) (a.y - b.y)

/-- One iteration of the art-layer loop (source lines 90–111): ignore an
empty/false box; otherwise initialise the corner pair from the box's
corners divided by 1875, or merge by componentwise min (bottom-left) and
max (top-right). -/
def stepCorners (acc : Option Corners) (b : Option Box) : Option Corners :=
  match b with
  | none => acc
  | some box =>
    match acc with
    | none =>
      some (Corners.mk (box.x0 / 1875) (box.y0 / 1875) (box.x1 / 1875) (box.y1 / 1875))
    | some c =>
      some (Corners.mk (min (box.x0 / 1875) c.c0x) (min (box.y0 / 1875) c.c0y)
                       (max (box.x1 / 1875) c.c1x) (max (box.y1 / 1875) c.c1y))

/-- The art-layer loop of source lines 89–111 folded over the four boxes
(`none` = the `corners` array is still empty, i.e. every layer was
empty/false). -/
def aggregateCorners (obs : List (Option Box)) : Option Corners :=
  obs.foldl stepCorners none

/-- The pivot-target decision of source lines 58–83: the drawing itself
when it is animatable and not in "Apply Embedded Pivot on Parent Peg"
mode, otherwise the first upstream `"PEG"` node (`node.srcNode` directly,
or `traverseChainUpToFindPeg` when the immediate source is not a peg);
`none` when resolution fails and the drawing is skipped. -/
def resolvePivotNode (s : Scene) (curDrawing : String) : Option String :=
  let boolAnimatable := s.canAnimate curDrawing
  let embeddedPivotOption := s.useDrawingPivot curDrawing
  if !boolAnimatable || (boolAnimatable && embeddedPivotOption == "Apply Embedded Pivot on Parent Peg") then
    let p := s.srcNode curDrawing
    if p = "" then none
    else if s.ntype p ≠ "PEG" then
      let p2 := traverseChainUpToFindPeg s p
      if p2 = "" then none else some p2
    else some p
  else some curDrawing

/-- The four `Drawing.query.getBox` results for `curDrawing` at the current
frame, for art layers 0–3 (source lines 90–93). -/
def layerBoxes (s : Scene) (curDrawing : String) : List (Option Box) :=
  [s.getBox curDrawing s.currentFrame 0, s.getBox curDrawing s.currentFrame 1,
   s.getBox curDrawing s.currentFrame 2, s.getBox curDrawing s.currentFrame 3]

/-- The body of the main `for (var n in sNodes)` loop for one drawing
(source lines 55–146): resolve the pivot target, aggregate the four art
layers' boxes, compute the center, apply the pivot-inversion compensation
when required, and write the pivot; on a failed target resolution or an
empty drawing, log a notice instead. -/
def processDrawing (s : Scene) (curDrawing : String) : List Effect :=
  let embeddedPivotOption := s.useDrawingPivot curDrawing
  match resolvePivotNode s curDrawing with
  | none =>
    [Effect.log (curDrawing ++ " is not animatable, and it does not have a parent peg to set its pivot position.")]
  | some pivotNode =>
    let fr := s.currentFrame
    match aggregateCorners (layerBoxes s curDrawing) with
    | none =>
      [Effect.log (curDrawing ++ " is empty at frame " ++ toString fr ++ ". Unable to set its layer pivot.")]
    | some corners =>
      let btmL_local_OGL := Point2d.mk corners.c0x corners.c0y
      let topR_local_OGL := Point2d.mk corners.c1x corners.c1y
      let center_local_OGL := midPointAt btmL_local_OGL topR_local_OGL (1/2)
      if (curDrawing ≠ pivotNode ∧ embeddedPivotOption = "Apply Embedded Pivot on Parent Peg") ∨
         (curDrawing = pivotNode ∧ embeddedPivotOption = "Apply Embedded Pivot on Drawing Layer") then
        let drawPivot := s.getPivot pivotNode fr
        let center2 :=
          if drawPivot.1 ≠ 0 ∨ drawPivot.2 ≠ 0 then
            subtractBFromA center_local_OGL
              (Point2d.mk (s.toOGLX drawPivot.1) (s.toOGLY drawPivot.2))
          else center_local_OGL
        [Effect.setTextAttr pivotNode "pivot.x" 1 0,
         Effect.setTextAttr pivotNode "pivot.y" 1 0,
         Effect.setTextAttr pivotNode "pivot.x" 1 (s.fromOGLX center2.x),
         Effect.setTextAttr pivotNode "pivot.y" 1 (s.fromOGLY center2.y)]
      else
        [Effect.setTextAttr pivotNode "pivot.x" 1 (s.fromOGLX center_local_OGL.x),
         Effect.setTextAttr pivotNode "pivot.y" 1 (s.fromOGLY center_local_OGL.y)]

/-- The main `for (var n in sNodes)` loop (source lines 55–147), iterating
the drawings in order. -/
def mainLoop (s : Scene) : List String → List Effect
  | [] => []
  | d :: rest => processDrawing s d ++ mainLoop s rest

/-- Embedding of the entry point `ANM_Set_Layer_Pivots_At_Center_Of_Drawings`
(source lines 42–150): expand the selection to drawings; on an empty result
show one dialog and stop, otherwise run the whole batch inside one
undo/redo bracket. -/
def runScript (s : Scene) : List Effect :=
  let sNodes := getDrawings s.selectedNodes
  if sNodes.length = 0 then
    [Effect.dialog "Please select at least one drawing node before running this script.\nYou can also select a group that contain multiple drawing nodes."]
  else
    Effect.beginUndo "Set layer pivot(s) at the center of drawing(s)" ::
      (mainLoop s sNodes ++ [Effect.endUndo ""])

/-! ## Helper lemmas for the bounding-box aggregation -/

/-- `initCorners b` is the corner pair created from the first non-empty box
(source lines 97–103). -/
def initCorners (b : Box) : Corners :=
  Corners.mk (b.x0 / 1875) (b.y0 / 1875) (b.x1 / 1875) (b.y1 / 1875)

/-- `mergeBox c b` is the min/max merge of a further non-empty box into the
running corner pair (source lines 104–110). -/
def mergeBox (c : Corners) (b : Box) : Corners :=
  Corners.mk (min (b.x0 / 1875) c.c0x) (min (b.y0 / 1875) c.c0y)
             (max (b.x1 / 1875) c.c1x) (max (b.y1 / 1875) c.c1y)

theorem stepCorners_right_comm (acc : Option Corners) (b1 b2 : Option Box) :
    stepCorners (stepCorners acc b1) b2 = stepCorners (stepCorners acc b2) b1 := by
  rcases b1 with _ | b1 <;> rcases b2 with _ | b2 <;> rcases acc with _ | c <;>
    simp [stepCorners, Corners.mk.injEq, min_comm, min_left_comm, max_comm, max_left_comm]

theorem foldl_stepCorners_some (obs : List (Option Box)) (c0 : Corners) :
    obs.foldl stepCorners (some c0) = some ((obs.filterMap id).foldl mergeBox c0) := by
  induction obs generalizing c0 with
  | nil => rfl
  | cons hd tl ih =>
    rcases hd with _ | b
    · simpa using ih c0
    · simpa [stepCorners, mergeBox] using ih (mergeBox c0 b)

/-- The art-layer loop computes exactly the `mergeBox` fold of the non-empty
boxes, seeded with the first one. -/
theorem aggregateCorners_eq (obs : List (Option Box)) :
    aggregateCorners obs =
      match obs.filterMap id with
      | [] => none
      | b :: bs => some (bs.foldl mergeBox (initCorners b)) := by
  induction obs with
  | nil => rfl
  | cons hd tl ih =>
    rcases hd with _ | b
    · simpa [aggregateCorners] using ih
    · simpa [aggregateCorners, stepCorners, initCorners] using
        foldl_stepCorners_some tl (initCorners b)

/-- The `mergeBox` fold only shrinks the bottom-left corner and grows the
top-right corner, it bounds every merged box, and each final coordinate is
attained by the seed or one of the merged boxes. -/
theorem foldl_mergeBox_bounds (bs : List Box) (c0 : Corners) :
    ((bs.foldl mergeBox c0).c0x ≤ c0.c0x ∧ (bs.foldl mergeBox c0).c0y ≤ c0.c0y ∧
     c0.c1x ≤ (bs.foldl mergeBox c0).c1x ∧ c0.c1y ≤ (bs.foldl mergeBox c0).c1y) ∧
    (∀ b ∈ bs, (bs.foldl mergeBox c0).c0x ≤ b.x0 / 1875 ∧
               (bs.foldl mergeBox c0).c0y ≤ b.y0 / 1875 ∧
               b.x1 / 1875 ≤ (bs.foldl mergeBox c0).c1x ∧
               b.y1 / 1875 ≤ (bs.foldl mergeBox c0).c1y) ∧
    (((bs.foldl mergeBox c0).c0x = c0.c0x ∨ ∃ b ∈ bs, (bs.foldl mergeBox c0).c0x = b.x0 / 1875) ∧
     ((bs.foldl mergeBox c0).c0y = c0.c0y ∨ ∃ b ∈ bs, (bs.foldl mergeBox c0).c0y = b.y0 / 1875) ∧
     ((bs.foldl mergeBox c0).c1x = c0.c1x ∨ ∃ b ∈ bs, (bs.foldl mergeBox c0).c1x = b.x1 / 1875) ∧
     ((bs.foldl mergeBox c0).c1y = c0.c1y ∨ ∃ b ∈ bs, (bs.foldl mergeBox c0).c1y = b.y1 / 1875)) := by
  induction bs generalizing c0 with
  | nil => simp
  | cons b tl ih =>
    obtain ⟨⟨h1, h2, h3, h4⟩, hmem, ⟨a1, a2, a3, a4⟩⟩ := ih (mergeBox c0 b)
    refine ⟨⟨?_, ?_, ?_, ?_⟩, ?_, ⟨?_, ?_, ?_, ?_⟩⟩
    · exact le_trans h1 (min_le_right _ _)
    · exact le_trans h2 (min_le_right _ _)
    · exact le_trans (le_max_right _ _) h3
    · exact le_trans (le_max_right _ _) h4
    · intro x hx
      rcases List.mem_cons.1 hx with rfl | hx
      · exact ⟨le_trans h1 (min_le_left _ _), le_trans h2 (min_le_left _ _),
          le_trans (le_max_left _ _) h3, le_trans (le_max_left _ _) h4⟩
      · exact hmem x hx
    · rcases a1 with h | ⟨x, hx, he⟩
      · rcases le_total (b.x0 / 1875) c0.c0x with hle | hle
        · exact Or.inr ⟨b, List.mem_cons_self _ _, h.trans (min_eq_left hle)⟩
        · exact Or.inl (h.trans (min_eq_right hle))
      · exact Or.inr ⟨x, List.mem_cons_of_mem _ hx, he⟩
    · rcases a2 with h | ⟨x, hx, he⟩
      · rcases le_total (b.y0 / 1875) c0.c0y with hle | hle
        · exact Or.inr ⟨b, List.mem_cons_self _ _, h.trans (min_eq_left hle)⟩
        · exact Or.inl (h.trans (min_eq_right hle))
      · exact Or.inr ⟨x, List.mem_cons_of_mem _ hx, he⟩
    · rcases a3 with h | ⟨x, hx, he⟩
      · rcases le_total (b.x1 / 1875) c0.c1x with hle | hle
        · exact Or.inl (h.trans (max_eq_right hle))
        · exact Or.inr ⟨b, List.mem_cons_self _ _, h.trans (max_eq_left hle)⟩
      · exact Or.inr ⟨x, List.mem_cons_of_mem _ hx, he⟩
    · rcases a4 with h | ⟨x, hx, he⟩
      · rcases le_total (b.y1 / 1875) c0.c1y with hle | hle
        · exact Or.inl (h.trans (max_eq_right hle))
        · exact Or.inr ⟨b, List.mem_cons_self _ _, h.trans (max_eq_left hle)⟩
      · exact Or.inr ⟨x, List.mem_cons_of_mem _ hx, he⟩

/-- C1: for a drawing with at least one non-empty art-layer box, the
aggregated corner pair is invariant under permuting the layer boxes, its
bottom-left corner is the componentwise minimum and its top-right corner
the componentwise maximum of the non-empty boxes' corners divided by 1875,
and the computed center is the `t = 1/2` linear midpoint of those two
corners, i.e. their arithmetic mean. -/
theorem c1_center_is_midpoint_of_extremes
    (obs obsPerm : List (Option Box)) (c : Corners)
    (hp : obs.Perm obsPerm) (h : aggregateCorners obs = some c) :
    aggregateCorners obsPerm = some c ∧
    (∀ b ∈ obs.filterMap id,
       c.c0x ≤ b.x0 / 1875 ∧ c.c0y ≤ b.y0 / 1875 ∧
       b.x1 / 1875 ≤ c.c1x ∧ b.y1 / 1875 ≤ c.c1y) ∧
    ((∃ b ∈ obs.filterMap id, c.c0x = b.x0 / 1875) ∧
     (∃ b ∈ obs.filterMap id, c.c0y = b.y0 / 1875) ∧
     (∃ b ∈ obs.filterMap id, c.c1x = b.x1 / 1875) ∧
     (∃ b ∈ obs.filterMap id, c.c1y = b.y1 / 1875)) ∧
    midPointAt (Point2d.mk c.c0x c.c0y) (Point2d.mk c.c1x c.c1y) (1/2) =
      Point2d.mk ((c.c0x + c.c1x) / 2) ((c.c0y + c.c1y) / 2) := by
  haveI : RightCommutative stepCorners := ⟨fun a b1 b2 => stepCorners_right_comm a b1 b2⟩
  refine ⟨?_, ?_⟩
  · rw [aggregateCorners, ← hp.foldl_eq none]
    exact h
  have hchar := aggregateCorners_eq obs
  rw [h] at hchar
  rcases hfm : obs.filterMap id with _ | ⟨b, bs⟩
  · rw [hfm] at hchar
    simp at hchar
  rw [hfm] at hchar
  simp only [Option.some.injEq] at hchar
  obtain ⟨⟨i1, i2, i3, i4⟩, hmem, ⟨a1, a2, a3, a4⟩⟩ := foldl_mergeBox_bounds bs (initCorners b)
  rw [← hchar] at i1 i2 i3 i4 hmem a1 a2 a3 a4
  refine ⟨?_, ⟨?_, ?_, ?_, ?_⟩, ?_⟩
  · intro x hx
    rcases List.mem_cons.1 hx with rfl | hx
    · exact ⟨i1, i2, i3, i4⟩
    · exact hmem x hx
  · rcases a1 with h1 | ⟨x, hx, he⟩
    · exact ⟨b, List.mem_cons_self _ _, h1⟩
    · exact ⟨x, List.mem_cons_of_mem _ hx, he⟩
  · rcases a2 with h2 | ⟨x, hx, he⟩
    · exact ⟨b, List.mem_cons_self _ _, h2⟩
    · exact ⟨x, List.mem_cons_of_mem _ hx, he⟩
  · rcases a3 with h3 | ⟨x, hx, he⟩
    · exact ⟨b, List.mem_cons_self _ _, h3⟩
    · exact ⟨x, List.mem_cons_of_mem _ hx, he⟩
  · rcases a4 with h4 | ⟨x, hx, he⟩
    · exact ⟨b, List.mem_cons_self _ _, h4⟩
    · exact ⟨x, List.mem_cons_of_mem _ hx, he⟩
  · simp only [midPointAt, Point2d.mk.injEq]
    constructor <;> ring

/-- Witness for C1 at a concrete pair of box lists related by a swap. -/
theorem c1_center_is_midpoint_of_extremes_witness :
    aggregateCorners [some (Box.mk (-1875) 1875 3750 9375),
                      some (Box.mk 0 0 1875 1875), none] =
      some (Corners.mk (-1) 0 2 5) :=
  (c1_center_is_midpoint_of_extremes
    [some (Box.mk 0 0 1875 1875), some (Box.mk (-1875) 1875 3750 9375), none]
    [some (Box.mk (-1875) 1875 3750 9375), some (Box.mk 0 0 1875 1875), none]
    (Corners.mk (-1) 0 2 5)
    (List.Perm.swap _ _ _)
    (by norm_num [aggregateCorners, stepCorners, Corners.mk.injEq])).1

/-! ## Effect classification helpers and concrete test scenes -/

/-- Attribute-write effects (`node.setTextAttr` calls). -/
def isWriteEffect : Effect → Bool
  | Effect.setTextAttr _ _ _ _ => true
  | _ => false

/-- Modal dialog effects (`MessageBox.information` calls). -/
def isDialogEffect : Effect → Bool
  | Effect.dialog _ => true
  | _ => false

/-- Undo/redo transaction bracket effects. -/
def isUndoBracketEffect : Effect → Bool
  | Effect.beginUndo _ => true
  | Effect.endUndo _ => true
  | _ => false

/-- A host environment with an empty selection and trivial answers to every
query; concrete scenes below override individual fields. -/
def baseScene : Scene where
  selectedNodes := []
  canAnimate := fun _ => true
  useDrawingPivot := fun _ => ""
  srcNode := fun _ => ""
  ntype := fun _ => ""
  parentNode := fun _ => ""
  numberOfSubNodes := fun _ => 0
  currentFrame := 1
  getBox := fun _ _ _ => none
  getPivot := fun _ _ => (0, 0)
  toOGLX := id
  toOGLY := id
  fromOGLX := id
  fromOGLY := id

/-- A scene whose selection reaches the animatable drawing `"D"` twice: once
directly and once inside the group `"G"`; art layer 0 of `"D"` has a
non-empty box. -/
def sceneDup : Scene :=
  { baseScene with
    selectedNodes := [SNode.mk "D" "READ" [],
                      SNode.mk "G" "GROUP" [SNode.mk "D" "READ" []]]
    getBox := fun _ _ a => if a = 0 then some (Box.mk 0 0 3750 3750) else none }

/-! ## Helper lemmas on the drawing collector and the main loop -/

theorem getDrawings_append (a b : List SNode) :
    getDrawings (a ++ b) = getDrawings a ++ getDrawings b := by
  induction a with
  | nil => simp [getDrawings]
  | cons x tl ih =>
    rcases x with ⟨nm, t, ch⟩
    simp [getDrawings, ih, List.append_assoc]

theorem mainLoop_append (s : Scene) (a b : List String) :
    mainLoop s (a ++ b) = mainLoop s a ++ mainLoop s b := by
  induction a with
  | nil => rfl
  | cons x tl ih => simp [mainLoop, ih, List.append_assoc]

/-- C5: the Drawing Collector distributes over list concatenation (so it is
order-preserving and flattening), keeps each `"READ"` node as exactly its
name, expands a `"GROUP"` node in place into the collection of its
children, discards every other node type, and on a group of 3 drawings plus
a nested group of 2 more drawings yields exactly the 5 names in depth-first
order.  It is a pure function: its only output is the returned list. -/
theorem c5_collector_flattens_depth_first :
    (∀ a b : List SNode, getDrawings (a ++ b) = getDrawings a ++ getDrawings b) ∧
    (∀ nm ch, getDrawings [SNode.mk nm "READ" ch] = [nm]) ∧
    (∀ nm ch, getDrawings [SNode.mk nm "GROUP" ch] = getDrawings ch) ∧
    (∀ nm t ch, t ≠ "READ" → t ≠ "GROUP" → getDrawings [SNode.mk nm t ch] = []) ∧
    getDrawings [SNode.mk "G" "GROUP"
      [SNode.mk "d1" "READ" [], SNode.mk "d2" "READ" [], SNode.mk "d3" "READ" [],
       SNode.mk "G2" "GROUP" [SNode.mk "d4" "READ" [], SNode.mk "d5" "READ" []]]] =
      ["d1", "d2", "d3", "d4", "d5"] := by
  refine ⟨getDrawings_append, ?_, ?_, ?_, ?_⟩
  · intro nm ch; simp [getDrawings]
  · intro nm ch; simp [getDrawings]
  · intro nm t ch h1 h2; simp [getDrawings, h1, h2]
  · simp [getDrawings]

/-- Witness for C5's conditional conjunct at a concrete non-drawing,
non-group node type. -/
theorem c5_collector_flattens_depth_first_witness :
    getDrawings [SNode.mk "P" "PEG" []] = [] :=
  c5_collector_flattens_depth_first.2.2.2.1 "P" "PEG" []
    (by decide) (by decide)

/-- Concrete evaluation of the whole run on `sceneDup`: the duplicated
drawing is processed twice, two write pairs in one undo bracket. -/
theorem runScript_sceneDup_eq :
    runScript sceneDup =
      [Effect.beginUndo "Set layer pivot(s) at the center of drawing(s)",
       Effect.setTextAttr "D" "pivot.x" 1 1, Effect.setTextAttr "D" "pivot.y" 1 1,
       Effect.setTextAttr "D" "pivot.x" 1 1, Effect.setTextAttr "D" "pivot.y" 1 1,
       Effect.endUndo ""] := by
  have hg : getDrawings sceneDup.selectedNodes = ["D", "D"] := by
    simp [sceneDup, baseScene, getDrawings]
  have hne : ¬ (("" : String) = "Apply Embedded Pivot on Parent Peg") := by decide
  have hne2 : ¬ (("" : String) = "Apply Embedded Pivot on Drawing Layer") := by decide
  rw [runScript, hg]
  norm_num [mainLoop, processDrawing, resolvePivotNode, layerBoxes,
    aggregateCorners, stepCorners, midPointAt, subtractBFromA, sceneDup, baseScene,
    hne, hne2]

/-- C9: the collector deduplicates nothing (occurrence counts add across
list concatenation), a selection reaching the same drawing twice yields it
twice, and the main loop then processes it and writes its pivot once per
occurrence: on `sceneDup` the run writes `"D"`'s pivot twice (two
`pivot.x`/`pivot.y` write pairs). -/
theorem c9_duplicates_processed_per_occurrence :
    (∀ (a b : List SNode) (x : String),
       (getDrawings (a ++ b)).count x = (getDrawings a).count x + (getDrawings b).count x) ∧
    getDrawings sceneDup.selectedNodes = ["D", "D"] ∧
    runScript sceneDup =
      [Effect.beginUndo "Set layer pivot(s) at the center of drawing(s)",
       Effect.setTextAttr "D" "pivot.x" 1 1, Effect.setTextAttr "D" "pivot.y" 1 1,
       Effect.setTextAttr "D" "pivot.x" 1 1, Effect.setTextAttr "D" "pivot.y" 1 1,
       Effect.endUndo ""] := by
  refine ⟨?_, by simp [sceneDup, baseScene, getDrawings], runScript_sceneDup_eq⟩
  intro a b x
  rw [getDrawings_append, List.count_append]

/-- C7: when the selection expands to zero drawings the run is exactly one
informational dialog: no attribute write, no undo/redo bracket, no other
effect at all. -/
theorem c7_empty_selection_dialog_only (s : Scene)
    (h : getDrawings s.selectedNodes = []) :
    runScript s = [Effect.dialog "Please select at least one drawing node before running this script.\nYou can also select a group that contain multiple drawing nodes."] ∧
    ((runScript s).filter isDialogEffect).length = 1 ∧
    (runScript s).filter isWriteEffect = [] ∧
    (runScript s).filter isUndoBracketEffect = [] := by
  have hrun : runScript s = [Effect.dialog "Please select at least one drawing node before running this script.\nYou can also select a group that contain multiple drawing nodes."] := by
    simp [runScript, h]
  refine ⟨hrun, ?_, ?_, ?_⟩ <;>
    simp [hrun, isDialogEffect, isWriteEffect, isUndoBracketEffect]

/-- Witness for C7 on the concrete empty-selection scene. -/
theorem c7_empty_selection_dialog_only_witness :
    (runScript baseScene).filter isWriteEffect = [] :=
  (c7_empty_selection_dialog_only baseScene (by simp [baseScene, getDrawings])).2.2.1

/-- C6: a drawing whose four art-layer box queries all come back empty
contributes no attribute write, only a single logged notice, and the loop
goes on with the remaining drawings of the batch. -/
theorem c6_empty_drawing_skipped (s : Scene) (d : String)
    (h0 : s.getBox d s.currentFrame 0 = none)
    (h1 : s.getBox d s.currentFrame 1 = none)
    (h2 : s.getBox d s.currentFrame 2 = none)
    (h3 : s.getBox d s.currentFrame 3 = none) :
    (∃ m, processDrawing s d = [Effect.log m] ∧
       ∀ rest, mainLoop s (d :: rest) = Effect.log m :: mainLoop s rest) ∧
    (processDrawing s d).filter isWriteEffect = [] := by
  have hagg : aggregateCorners (layerBoxes s d) = none := by
    simp [layerBoxes, h0, h1, h2, h3, aggregateCorners, stepCorners]
  rcases hr : resolvePivotNode s d with _ | p
  · refine ⟨⟨d ++ " is not animatable, and it does not have a parent peg to set its pivot position.", ?_, ?_⟩, ?_⟩ <;>
      simp [processDrawing, mainLoop, hr, isWriteEffect]
  · refine ⟨⟨d ++ " is empty at frame " ++ toString s.currentFrame ++ ". Unable to set its layer pivot.", ?_, ?_⟩, ?_⟩ <;>
      simp [processDrawing, mainLoop, hr, hagg, isWriteEffect]

/-- Witness for C6 on a concrete all-empty drawing. -/
theorem c6_empty_drawing_skipped_witness :
    (processDrawing baseScene "D").filter isWriteEffect = [] :=
  (c6_empty_drawing_skipped baseScene "D" rfl rfl rfl rfl).2

/-! ## The upstream source-link chain -/

/-- `srcIter s k x` is the node reached from `x` by following
`node.srcNode(·, 0)` `k` times. -/
def srcIter (s : Scene) : Nat → String → String
  | 0, x => x
  | k + 1, x => srcIter s k (s.srcNode x)

/-- A successful `traverseLoop` run lands on the first `"PEG"` of the chain
within the fuel bound: every earlier chain node is non-empty and not a
peg. -/
theorem traverseLoop_finds (s : Scene) :
    ∀ (fuel : Nat) (x p : String), traverseLoop s fuel x = p → p ≠ "" →
      s.ntype p = "PEG" ∧
      ∃ k < fuel, p = srcIter s k x ∧
        ∀ j < k, srcIter s j x ≠ "" ∧ s.ntype (srcIter s j x) ≠ "PEG" := by
  intro fuel
  induction fuel with
  | zero => intro x p h hne; exact absurd h.symm hne
  | succ n ih =>
    intro x p h hne
    rw [traverseLoop] at h
    by_cases hx : x = ""
    · rw [if_pos hx] at h; exact absurd h.symm hne
    rw [if_neg hx] at h
    by_cases hpeg : s.ntype x = "PEG"
    · rw [if_pos hpeg] at h
      subst h
      exact ⟨hpeg, 0, Nat.succ_pos n, rfl, by intro j hj; omega⟩
    rw [if_neg hpeg] at h
    obtain ⟨hp, k, hk, hpk, hchain⟩ := ih (s.srcNode x) p h hne
    refine ⟨hp, k + 1, Nat.succ_lt_succ hk, hpk, ?_⟩
    intro j hj
    match j with
    | 0 => exact ⟨hx, hpeg⟩
    | j + 1 => exact hchain j (Nat.lt_of_succ_lt_succ hj)

/-- Failure of `traverseLoop` is stable in the sense that the result is
either empty or a peg; it never returns a non-peg node. -/
theorem traverseLoop_result (s : Scene) :
    ∀ (fuel : Nat) (x : String),
      traverseLoop s fuel x = "" ∨ s.ntype (traverseLoop s fuel x) = "PEG" := by
  intro fuel
  induction fuel with
  | zero => intro x; exact Or.inl rfl
  | succ n ih =>
    intro x
    rw [traverseLoop]
    by_cases hx : x = ""
    · rw [if_pos hx]; exact Or.inl rfl
    rw [if_neg hx]
    by_cases hpeg : s.ntype x = "PEG"
    · rw [if_pos hpeg]; exact Or.inr hpeg
    rw [if_neg hpeg]
    exact ih (s.srcNode x)

/-- When the peg-search branch of the target resolver succeeds, the result
is the first `"PEG"` node of the upstream source chain of the drawing. -/
theorem resolvePivotNode_peg_branch (s : Scene) (d p : String)
    (hb : (!s.canAnimate d ||
           (s.canAnimate d && (s.useDrawingPivot d == "Apply Embedded Pivot on Parent Peg"))) = true)
    (h : resolvePivotNode s d = some p) :
    s.ntype p = "PEG" ∧
    ∃ k, 1 ≤ k ∧ p = srcIter s k d ∧
      ∀ j, 1 ≤ j → j < k → srcIter s j d ≠ "" ∧ s.ntype (srcIter s j d) ≠ "PEG" := by
  rw [resolvePivotNode] at h
  simp only [hb, if_true] at h
  by_cases h1 : s.srcNode d = ""
  · rw [if_pos h1] at h; cases h
  rw [if_neg h1] at h
  by_cases h2 : s.ntype (s.srcNode d) ≠ "PEG"
  · rw [if_pos h2] at h
    by_cases h3 : traverseChainUpToFindPeg s (s.srcNode d) = ""
    · rw [if_pos h3] at h; cases h
    rw [if_neg h3] at h
    injection h with h
    subst h
    obtain ⟨hp, k, _, hpk, hchain⟩ :=
      traverseLoop_finds s (s.numberOfSubNodes (s.parentNode (s.srcNode d)))
        (s.srcNode (s.srcNode d)) (traverseChainUpToFindPeg s (s.srcNode d)) rfl h3
    refine ⟨hp, k + 2, by omega, hpk, ?_⟩
    intro j hj1 hj2
    match j, hj1 with
    | 1, _ => exact ⟨h1, h2⟩
    | j + 2, _ => exact hchain j (by omega)
  · rw [if_neg h2] at h
    injection h with h
    subst h
    push_neg at h2
    exact ⟨h2, 1, le_refl 1, rfl, by intro j hj1 hj2; omega⟩

/-- Every attribute write emitted while processing a drawing goes to the
resolved pivot target, touches only `pivot.x`/`pivot.y` at sub-element
index 1, and can only happen when some art layer had a non-empty box. -/
theorem processDrawing_write_mem (s : Scene) (d nm a : String) (i : Nat) (v : ℚ)
    (h : Effect.setTextAttr nm a i v ∈ processDrawing s d) :
    resolvePivotNode s d = some nm ∧ (a = "pivot.x" ∨ a = "pivot.y") ∧ i = 1 ∧
    aggregateCorners (layerBoxes s d) ≠ none := by
  rw [processDrawing] at h
  rcases hr : resolvePivotNode s d with _ | p <;> rw [hr] at h
  · simp at h
  rcases hagg : aggregateCorners (layerBoxes s d) with _ | c <;> rw [hagg] at h
  · simp at h
  simp only [] at h
  split_ifs at h with hcond <;> simp only [List.mem_cons, List.mem_singleton,
    List.not_mem_nil, or_false] at h <;>
    rcases h with h | h | h | h | h <;> simp_all

/-- C2: an animatable drawing not in "Apply Embedded Pivot on Parent Peg"
mode is its own pivot target and every pivot write lands on it; a
non-animatable drawing's writes land on the first `"PEG"` of its upstream
source chain — a node other than the drawing itself (whose type is
`"READ"`, not `"PEG"`). -/
theorem c2_target_drawing_or_parent_peg (s : Scene) (d : String) :
    (s.canAnimate d = true → s.useDrawingPivot d ≠ "Apply Embedded Pivot on Parent Peg" →
       resolvePivotNode s d = some d ∧
       ∀ nm a i v, Effect.setTextAttr nm a i v ∈ processDrawing s d → nm = d) ∧
    (s.canAnimate d = false → ∀ p, resolvePivotNode s d = some p →
       s.ntype p = "PEG" ∧ (s.ntype d = "READ" → p ≠ d) ∧
       (∃ k, 1 ≤ k ∧ p = srcIter s k d ∧
          ∀ j, 1 ≤ j → j < k → srcIter s j d ≠ "" ∧ s.ntype (srcIter s j d) ≠ "PEG") ∧
       ∀ nm a i v, Effect.setTextAttr nm a i v ∈ processDrawing s d → nm = p) := by
  constructor
  · intro ha hm
    have hres : resolvePivotNode s d = some d := by
      rw [resolvePivotNode]
      simp [ha, hm]
    refine ⟨hres, ?_⟩
    intro nm a i v hmem
    have := (processDrawing_write_mem s d nm a i v hmem).1
    rw [hres] at this
    injection this with this
    exact this.symm
  · intro ha p hres
    have hb : (!s.canAnimate d ||
        (s.canAnimate d && (s.useDrawingPivot d == "Apply Embedded Pivot on Parent Peg"))) = true := by
      rw [ha]; rfl
    obtain ⟨hp, hchain⟩ := resolvePivotNode_peg_branch s d p hb hres
    refine ⟨hp, ?_, hchain, ?_⟩
    · intro hread heq
      rw [heq, hread] at hp
      exact absurd hp (by decide)
    · intro nm a i v hmem
      have := (processDrawing_write_mem s d nm a i v hmem).1
      rw [hres] at this
      injection this with this
      exact this.symm

/-- A scene with a non-animatable drawing `"D"` whose source chain is
`"D" → "E" → "P"` with `"E"` a composite and `"P"` a peg. -/
def sceneNA : Scene :=
  { baseScene with
    canAnimate := fun _ => false
    srcNode := fun n => if n = "D" then "E" else if n = "E" then "P" else ""
    ntype := fun n => if n = "P" then "PEG" else if n = "D" then "READ" else "COMPOSITE"
    numberOfSubNodes := fun _ => 3 }

/-- Witness for C2 on a concrete non-animatable drawing whose grandparent
source is a peg. -/
theorem c2_target_drawing_or_parent_peg_witness :
    sceneNA.ntype "P" = "PEG" :=
  ((c2_target_drawing_or_parent_peg sceneNA "D").2 (by decide) "P" (by decide)).1

/-- C4: the upward peg search (a fuel-indexed loop, hence terminating by
construction) inspects at most `numberOfSubNodes(parentNode(lastNode))`
chain nodes: a non-empty result is a `"PEG"` reached within that bound with
every skipped node non-empty and not a peg; with the bound exhausted (or
zero) the result is `""`; and a failed resolution makes the drawing
contribute exactly one logged notice, no writes, and the loop carries on
with the rest of the batch. -/
theorem c4_peg_search_bounded_and_skips (s : Scene) (lastNode : String) :
    (traverseChainUpToFindPeg s lastNode = "" ∨
      (s.ntype (traverseChainUpToFindPeg s lastNode) = "PEG" ∧
       ∃ k < s.numberOfSubNodes (s.parentNode lastNode),
         traverseChainUpToFindPeg s lastNode = srcIter s k (s.srcNode lastNode) ∧
         ∀ j < k, srcIter s j (s.srcNode lastNode) ≠ "" ∧
                  s.ntype (srcIter s j (s.srcNode lastNode)) ≠ "PEG")) ∧
    (s.numberOfSubNodes (s.parentNode lastNode) = 0 →
       traverseChainUpToFindPeg s lastNode = "") ∧
    (∀ d, resolvePivotNode s d = none →
       processDrawing s d =
         [Effect.log (d ++ " is not animatable, and it does not have a parent peg to set its pivot position.")] ∧
       (processDrawing s d).filter isWriteEffect = [] ∧
       ∀ rest, mainLoop s (d :: rest) =
         Effect.log (d ++ " is not animatable, and it does not have a parent peg to set its pivot position.") :: mainLoop s rest) := by
  refine ⟨?_, ?_, ?_⟩
  · by_cases he : traverseChainUpToFindPeg s lastNode = ""
    · exact Or.inl he
    · obtain ⟨hp, k, hk, hpk, hchain⟩ :=
        traverseLoop_finds s (s.numberOfSubNodes (s.parentNode lastNode))
          (s.srcNode lastNode) (traverseChainUpToFindPeg s lastNode) rfl he
      exact Or.inr ⟨hp, k, hk, hpk, hchain⟩
  · intro h0
    rw [traverseChainUpToFindPeg, h0]
    rfl
  · intro d hd
    refine ⟨?_, ?_, ?_⟩ <;> simp [processDrawing, mainLoop, hd, isWriteEffect]

/-- Witness for C4 on a concrete drawing with an empty source link. -/
theorem c4_peg_search_bounded_and_skips_witness :
    (processDrawing sceneNA "X").filter isWriteEffect = [] :=
  (((c4_peg_search_bounded_and_skips sceneNA "X").2.2) "X" (by decide)).2.1

/-- A scene with an animatable drawing `"D"` in "Apply Embedded Pivot on
Drawing Layer" mode, a raw center of (10, 10) in internal units and an
embedded pivot of (5, 3); coordinate conversions are the identity. -/
def sceneEmb : Scene :=
  { baseScene with
    useDrawingPivot := fun _ => "Apply Embedded Pivot on Drawing Layer"
    getBox := fun _ _ a => if a = 0 then some (Box.mk 0 0 37500 37500) else none
    getPivot := fun _ _ => (5, 3) }

/-- C3: when the pivot-inversion condition holds (target ≠ drawing with
parent-peg embedding, or target = drawing with drawing-layer embedding),
the drawing's effect trace is exactly: reset the target's `pivot.x` and
`pivot.y` to 0, then write the center with the read-back embedded pivot
(converted to internal unit space) subtracted if and only if it is
non-zero. -/
theorem c3_inverse_compensation (s : Scene) (d p : String) (c : Corners)
    (hr : resolvePivotNode s d = some p)
    (ha : aggregateCorners (layerBoxes s d) = some c)
    (hcond : (d ≠ p ∧ s.useDrawingPivot d = "Apply Embedded Pivot on Parent Peg") ∨
             (d = p ∧ s.useDrawingPivot d = "Apply Embedded Pivot on Drawing Layer")) :
    processDrawing s d =
      [Effect.setTextAttr p "pivot.x" 1 0,
       Effect.setTextAttr p "pivot.y" 1 0,
       Effect.setTextAttr p "pivot.x" 1
         (s.fromOGLX
           (if (s.getPivot p s.currentFrame).1 ≠ 0 ∨ (s.getPivot p s.currentFrame).2 ≠ 0
            then (c.c0x + c.c1x) / 2 - s.toOGLX (s.getPivot p s.currentFrame).1
            else (c.c0x + c.c1x) / 2)),
       Effect.setTextAttr p "pivot.y" 1
         (s.fromOGLY
           (if (s.getPivot p s.currentFrame).1 ≠ 0 ∨ (s.getPivot p s.currentFrame).2 ≠ 0
            then (c.c0y + c.c1y) / 2 - s.toOGLY (s.getPivot p s.currentFrame).2
            else (c.c0y + c.c1y) / 2))] := by
  simp only [processDrawing, hr, ha]
  rw [if_pos hcond]
  split_ifs with hz <;> simp [midPointAt, subtractBFromA] <;>
    exact ⟨by congr 1; ring, by congr 1; ring⟩

/-- Witness for C3: with prior embedded pivot (5, 3) and raw center
(10, 10) the written pivot is (5, 7). -/
theorem c3_inverse_compensation_witness :
    processDrawing sceneEmb "D" =
      [Effect.setTextAttr "D" "pivot.x" 1 0, Effect.setTextAttr "D" "pivot.y" 1 0,
       Effect.setTextAttr "D" "pivot.x" 1 5, Effect.setTextAttr "D" "pivot.y" 1 7] := by
  have h := c3_inverse_compensation sceneEmb "D" "D" (Corners.mk 0 0 20 20)
    (by decide)
    (by norm_num [aggregateCorners, layerBoxes, stepCorners, sceneEmb, baseScene,
          Corners.mk.injEq])
    (Or.inr ⟨rfl, rfl⟩)
  rw [h]
  norm_num [sceneEmb, baseScene]

/-- C8: any drawing that produces at least one attribute write has a
resolved pivot target that receives every one of its writes, and its box
aggregation was non-empty — so a pivot is written to exactly one node, and
only after a non-empty bounding box was found. -/
theorem c8_writes_one_node_after_nonempty_box (s : Scene) (d : String)
    (h : (processDrawing s d).filter isWriteEffect ≠ []) :
    (∃ p, resolvePivotNode s d = some p ∧
       ∀ nm a i v, Effect.setTextAttr nm a i v ∈ processDrawing s d → nm = p) ∧
    aggregateCorners (layerBoxes s d) ≠ none := by
  have hex : ∃ e ∈ processDrawing s d, isWriteEffect e = true := by
    by_contra hc
    push_neg at hc
    exact h (List.filter_eq_nil_iff.2 fun e he => by simp [hc e he])
  obtain ⟨e, he, hw⟩ := hex
  rcases e with m | m | m | m | ⟨nm, a, i, v⟩ <;> simp [isWriteEffect] at hw
  obtain ⟨hres, _, _, hagg⟩ := processDrawing_write_mem s d nm a i v he
  refine ⟨⟨nm, hres, ?_⟩, hagg⟩
  intro nm2 a2 i2 v2 hmem2
  have hres2 := (processDrawing_write_mem s d nm2 a2 i2 v2 hmem2).1
  rw [hres] at hres2
  injection hres2 with hres2
  exact hres2.symm

/-- Concrete evaluation of one drawing on `sceneDup`: center (1, 1), no
compensation, two writes. -/
theorem processDrawing_sceneDup_eq :
    processDrawing sceneDup "D" =
      [Effect.setTextAttr "D" "pivot.x" 1 1, Effect.setTextAttr "D" "pivot.y" 1 1] := by
  have hne : ¬ (("" : String) = "Apply Embedded Pivot on Parent Peg") := by decide
  have hne2 : ¬ (("" : String) = "Apply Embedded Pivot on Drawing Layer") := by decide
  norm_num [processDrawing, resolvePivotNode, layerBoxes, aggregateCorners,
    stepCorners, midPointAt, subtractBFromA, sceneDup, baseScene, hne, hne2]

/-- Witness for C8 on the concrete scene with a written drawing. -/
theorem c8_writes_one_node_after_nonempty_box_witness :
    aggregateCorners (layerBoxes sceneDup "D") ≠ none :=
  (c8_writes_one_node_after_nonempty_box sceneDup "D"
    (by rw [processDrawing_sceneDup_eq]; simp [isWriteEffect])).2

/-- Every effect of the main loop comes from processing one of the listed
drawings. -/
theorem mainLoop_mem (s : Scene) (l : List String) (e : Effect)
    (h : e ∈ mainLoop s l) : ∃ d ∈ l, e ∈ processDrawing s d := by
  induction l with
  | nil => cases h
  | cons x tl ih =>
    rw [mainLoop] at h
    rcases List.mem_append.1 h with h | h
    · exact ⟨x, List.mem_cons_self _ _, h⟩
    · obtain ⟨d, hd, hm⟩ := ih h
      exact ⟨d, List.mem_cons_of_mem _ hd, hm⟩

/-- C10: every attribute write of a whole run is a `pivot.x` or `pivot.y`
write at sub-element index 1 on the resolved pivot target of one of the
drawings the selection expanded to; the run performs no other kind of
mutation (the effect type has no graph or selection edit at all). -/
theorem c10_only_pivot_attrs_of_targets_written (s : Scene) (nm a : String) (i : Nat) (v : ℚ)
    (h : Effect.setTextAttr nm a i v ∈ runScript s) :
    (a = "pivot.x" ∨ a = "pivot.y") ∧ i = 1 ∧
    ∃ d ∈ getDrawings s.selectedNodes, resolvePivotNode s d = some nm := by
  simp only [runScript] at h
  split_ifs at h with hlen
  · simp at h
  · rcases List.mem_cons.1 h with h | h
    · exact Effect.noConfusion h
    rcases List.mem_append.1 h with h | h
    · obtain ⟨d, hd, hm⟩ := mainLoop_mem s _ _ h
      obtain ⟨hres, hattr, hi, _⟩ := processDrawing_write_mem s d nm a i v hm
      exact ⟨hattr, hi, d, hd, hres⟩
    · simp at h

/-- Witness for C10 on the concrete duplicated-drawing run. -/
theorem c10_only_pivot_attrs_of_targets_written_witness :
    (("pivot.x" : String) = "pivot.x" ∨ ("pivot.x" : String) = "pivot.y") :=
  (c10_only_pivot_attrs_of_targets_written sceneDup "D" "pivot.x" 1 1
    (by rw [runScript_sceneDup_eq]; simp)).1

end ANMPivots
